import Mathlib

/-!
Verification development for a small file-backed RDBMS (SQL parser,
schema, storage engine, index, executor).  The definitions below are a
shallow embedding of the Python sources in `rdbms/core/`:

  * `schema.py`   → `DataType`, `Column`, `TableSchema`, `Row`
  * `storage.py`  → `encodeFields`, `insert_row`, `read_rows`
  * `index.py`    → `IndexMap` and the `idxAdd` / `idxRemove` operations
  * `executor.py` → `execute_insert`, `execute_update`, `execute_delete`,
                    `execute_create_table`, `execute_drop_table`,
                    the join functions and `apply_order_by`
  * `parser.py`   → `parse_value`, `parse_simple_condition`,
                    `parse_where_clause`, `parseOrderBy`

The file system (row files, schema files, index files) and the
executor in-memory index cache are modelled explicitly by `DBState`;
executor operations thread the state so that partial effects of a
failing command are observable, exactly as Python exceptions leave
partial mutations behind.
-/

set_option synthInstance.maxSize 512

namespace RDBMS

/-- Decidable equality for `Except`, used to evaluate concrete
executor runs inside proofs. -/
instance {ε α : Type} [DecidableEq ε] [DecidableEq α] : DecidableEq (Except ε α)
  | .ok a, .ok b =>
      if h : a = b then .isTrue (by rw [h]) else .isFalse (fun hh => h (Except.ok.inj hh))
  | .error a, .error b =>
      if h : a = b then .isTrue (by rw [h]) else .isFalse (fun hh => h (Except.error.inj hh))
  | .ok _, .error _ => .isFalse (fun hh => Except.noConfusion hh)
  | .error _, .ok _ => .isFalse (fun hh => Except.noConfusion hh)

/-- Runtime values as produced by the parser and the storage decoder.
Python ints, strings, booleans and `None` are modelled directly.
Floats are kept as their literal text: no claim exercises float
arithmetic, printing or equality, the constructor only records what
the `float(...)` branch of `_parse_value` matched. -/
inductive Value where
  | int (i : Int)
  | str (s : String)
  | bool (b : Bool)
  | float (lit : String)
  | null
deriving DecidableEq, Repr

/-- Python `==` on the values above.  Python treats `bool` as a subtype
of `int`, so `True == 1` and `False == 0`; `None` equals only `None`;
values of unrelated types compare unequal. -/
def pyEq : Value → Value → Bool
  | .int i, .int j => i == j
  | .int i, .bool b => i == (if b then (1 : Int) else 0)
  | .bool b, .int i => (if b then (1 : Int) else 0) == i
  | .bool a, .bool b => a == b
  | .str a, .str b => a == b
  | .float a, .float b => a == b
  | .null, .null => true
  | _, _ => false

/-- Python `str(...)` of a value (floats approximated by their literal,
never exercised by a claim). -/
def pyStr : Value → String
  | .int i => toString i
  | .str s => s
  | .bool b => if b then "True" else "False"
  | .float lit => lit
  | .null => "None"

/-- Python `str.strip()` on a character list: whitespace removed from
both ends. -/
def trimList (cs : List Char) : List Char :=
  ((cs.dropWhile Char.isWhitespace).reverse.dropWhile Char.isWhitespace).reverse

/-- Python `str.strip()`. -/
def pyTrim (s : String) : String :=
  (trimList s.toList).asString

/-- Python `str.upper()` (ASCII, which covers every string the claims
touch). -/
def pyUpper (s : String) : String :=
  (s.toList.map Char.toUpper).asString

/-- Python `str.lower()` (ASCII). -/
def pyLower (s : String) : String :=
  (s.toList.map Char.toLower).asString

/-- Python `value.replace(",", "\\,")` — the comma escape of the row
encoder, specialized to its single-character needle. -/
def escapeCommas : List Char → List Char
  | [] => []
  | c :: rest =>
      if c = ',' then '\\' :: ',' :: escapeCommas rest
      else c :: escapeCommas rest

/-- Python `raw.replace("\\,", ",")` — the reverse escape of the row
decoder: left-to-right, non-overlapping. -/
def unescapeCommas : List Char → List Char
  | [] => []
  | [c] => [c]
  | c1 :: c2 :: rest =>
      if c1 = '\\' ∧ c2 = ',' then ',' :: unescapeCommas rest
      else c1 :: unescapeCommas (c2 :: rest)

/-- Python `s.split(sep)` for a one-character separator (the only kind
the sources use). -/
def splitOnChar (sep : Char) : List Char → List (List Char)
  | [] => [[]]
  | c :: rest =>
      if c = sep then [] :: splitOnChar sep rest
      else
        match splitOnChar sep rest with
        | part :: parts => (c :: part) :: parts
        | [] => [[c]]

/-- Python `s.startswith(needle)`. -/
def startsWithList (needle cs : List Char) : Bool :=
  needle.isPrefixOf cs

/-- Python `s.endswith(needle)`. -/
def endsWithList (needle cs : List Char) : Bool :=
  needle.reverse.isPrefixOf cs.reverse

/-- Column data types, `schema.py` `DataType`. -/
inductive DataType where
  | INTEGER
  | VARCHAR
  | BOOLEAN
  | DATE
deriving DecidableEq, Repr

/-- Column descriptor, `schema.py` `Column`. -/
structure Column where
  name : String
  dtype : DataType
  length : Option Nat := none
  primary_key : Bool := false
  unique : Bool := false
  nullable : Bool := true
deriving DecidableEq, Repr

/-- Table schema, `schema.py` `TableSchema`.  The Python `columns`
dict is insertion ordered with unique keys; it is modelled as the
ordered list of columns (the sources never create duplicate names). -/
structure TableSchema where
  name : String
  columns : List Column
deriving DecidableEq, Repr

/-- Derived list of primary-key column names, `TableSchema.__init__`. -/
def TableSchema.primary_key (s : TableSchema) : List String :=
  (s.columns.filter (fun c => c.primary_key)).map (fun c => c.name)

/-- Association-list lookup, first match wins; models Python dict
access for dicts with unique keys. -/
def alGet? {α β : Type} [BEq α] : List (α × β) → α → Option β
  | [], _ => none
  | (k, v) :: rest, key => if k == key then some v else alGet? rest key

/-- Key-membership test, Python `key in dict`. -/
def alHas {α β : Type} [BEq α] (l : List (α × β)) (key : α) : Bool :=
  (alGet? l key).isSome

/-- Dict assignment `d[key] = v`: update in place if the key exists,
append at the end otherwise (Python dicts keep insertion order). -/
def alSet {α β : Type} [BEq α] : List (α × β) → α → β → List (α × β)
  | [], key, v => [(key, v)]
  | (k, w) :: rest, key, v =>
      if k == key then (k, v) :: rest else (k, w) :: alSet rest key v

/-- Deletion `del d[key]` / `os.remove` if present: removes the first
entry with the given key, no-op when absent. -/
def alRemove {α β : Type} [BEq α] : List (α × β) → α → List (α × β)
  | [], _ => []
  | (k, w) :: rest, key => if k == key then rest else (k, w) :: alRemove rest key

/-- Row mappings (column name → value), Python dicts keyed by strings. -/
abbrev RowMap := List (String × Value)

/-- Sequential dict construction (`dict(...)` inserts pairs left to
right, later pairs overwriting earlier ones). -/
def pyDictGo : RowMap → List (String × Value) → RowMap
  | m, [] => m
  | m, p :: rest => pyDictGo (alSet m p.1 p.2) rest

/-- Build a dict from a pair list, models `dict(zip(columns, values))`. -/
def pyDict (pairs : List (String × Value)) : RowMap :=
  pyDictGo [] pairs

/-- Row access `row.get(k)` collapsed to Python truthiness of `None`:
returns `none` when the key is absent; a stored `Value.null` is the
Python `None` object itself, so it is also reported as `none` by the
variant `rmGetPy?` below. -/
def rmGet? (m : RowMap) (k : String) : Option Value :=
  alGet? m k

/-- Row access where a stored null is identified with Python `None`
(used by code that tests `value is not None`). -/
def rmGetPy? (m : RowMap) (k : String) : Option Value :=
  match alGet? m k with
  | some .null => none
  | o => o

/-- Value of a key that is known to be present (`row[k]`); absent keys
never occur where this is used. -/
def rmVal (m : RowMap) (k : String) : Value :=
  (alGet? m k).getD .null

/-- Schema validation, `TableSchema.validate_row`: every non-nullable
column must be present in the row mapping. -/
def TableSchema.validate_row (schema : TableSchema) (row : RowMap) : Bool :=
  schema.columns.all (fun col => col.nullable || alHas row col.name)

/-- Storage row record, `schema.py` `Row`: values plus the 1-based
line-number rowid. -/
structure Row where
  values : RowMap
  rowid : Nat
deriving DecidableEq, Repr

/-- Encoded form of one field, `storage.py` `insert_row` /
`_rewrite_table`: `None` becomes the literal `NULL`, otherwise
`str(value)` with every comma escaped as backslash-comma. -/
def encodeField : Value → String
  | .null => "NULL"
  | v => (escapeCommas (pyStr v).toList).asString

/-- Encoded fields of a row in schema order; a column missing from the
row mapping is encoded like a null (`row.get` returns `None`). -/
def encodeFields (schema : TableSchema) (row : RowMap) : List String :=
  schema.columns.map (fun col => encodeField ((rmGet? row col.name).getD .null))

/-- One encoded table-file line (fields joined by commas). -/
def encodeLine (schema : TableSchema) (row : RowMap) : String :=
  String.intercalate "," (encodeFields schema row)

/-- Numeric value of a digit run. -/
def digitsVal (cs : List Char) : Nat :=
  cs.foldl (fun n c => 10 * n + (c.toNat - 48)) 0

/-- Python `int(raw)` on decimal literals: optional surrounding
whitespace, optional sign, a non-empty digit run; everything else
raises (underscore grouping is not exercised by any table file this
development evaluates). -/
def pyInt? (s : String) : Option Int :=
  match trimList s.toList with
  | '-' :: rest =>
      if rest ≠ [] && rest.all Char.isDigit then some (-(digitsVal rest : Int)) else none
  | '+' :: rest =>
      if rest ≠ [] && rest.all Char.isDigit then some ((digitsVal rest : Int)) else none
  | cs =>
      if cs ≠ [] && cs.all Char.isDigit then some ((digitsVal cs : Int)) else none

/-- Field decoding in `read_rows`: the literal `NULL` is null;
INTEGER parses with `int(...)` (an error on failure), BOOLEAN compares
the lower-cased text with `true`, and string types reverse the comma
escape. -/
def decodeField (col : Column) (raw : String) : Except String Value :=
  if raw == "NULL" then .ok .null
  else
    match col.dtype with
    | .INTEGER =>
        match pyInt? raw with
        | some i => .ok (.int i)
        | none => .error ("invalid literal for int with base 10: " ++ raw)
    | .BOOLEAN => .ok (.bool (pyLower raw == "true"))
    | _ => .ok (.str (unescapeCommas raw.toList).asString)

/-- Decoding of one stripped line: split on every comma (the escape is
not respected by the split) and zip against the schema columns,
truncating at the shorter of the two. -/
def decodeLine (schema : TableSchema) (line : String) : Except String RowMap :=
  (schema.columns.zip ((splitOnChar ',' (trimList line.toList)).map List.asString)).mapM
    (fun p => (decodeField p.1 p.2).map (fun v => (p.1.name, v)))

/-- Index maps, `index.py`: `value → set of rowids`.  Python sets are
modelled as duplicate-free lists in insertion order. -/
abbrev IndexMap := List (Value × List Nat)

/-- Bucket lookup with Python `==` key semantics. -/
def vmGet? {β : Type} : List (Value × β) → Value → Option β
  | [], _ => none
  | (k, v) :: rest, key => if pyEq k key then some v else vmGet? rest key

/-- Bucket assignment with Python `==` key semantics. -/
def vmSet {β : Type} : List (Value × β) → Value → β → List (Value × β)
  | [], key, v => [(key, v)]
  | (k, w) :: rest, key, v =>
      if pyEq k key then (k, v) :: rest else (k, w) :: vmSet rest key v

/-- Bucket deletion with Python `==` key semantics. -/
def vmDel {β : Type} : List (Value × β) → Value → List (Value × β)
  | [], _ => []
  | (k, w) :: rest, key => if pyEq k key then rest else (k, w) :: vmDel rest key

/-- Set insertion `s.add(id)`. -/
def setAdd (s : List Nat) (id : Nat) : List Nat :=
  if s.contains id then s else s ++ [id]

/-- Set removal `s.discard(id)`. -/
def setDiscard (s : List Nat) (id : Nat) : List Nat :=
  s.filter (fun x => x ≠ id)

/-- `Index.add`: create the bucket when absent, then insert the rowid. -/
def idxAdd (m : IndexMap) (v : Value) (id : Nat) : IndexMap :=
  match vmGet? m v with
  | none => m ++ [(v, [id])]
  | some s => vmSet m v (setAdd s id)

/-- `Index.remove`: discard the rowid and drop the bucket if it became
empty; no-op when the bucket is absent. -/
def idxRemove (m : IndexMap) (v : Value) (id : Nat) : IndexMap :=
  match vmGet? m v with
  | none => m
  | some s =>
      let s' := setDiscard s id
      if s' = [] then vmDel m v else vmSet m v s'

/-- Whole observable state: the database directory (schema files, row
files as lists of lines, pickled index files) and the in-memory
index cache of the executor `indexes : table → column → Index`. -/
structure DBState where
  schemas : List (String × TableSchema) := []
  tables : List (String × List String) := []
  idxFiles : List ((String × String) × IndexMap) := []
  indexes : List (String × List (String × IndexMap)) := []
deriving DecidableEq, Repr

/-- `StorageEngine.load_schema`: error when the schema file is absent. -/
def loadSchema (st : DBState) (t : String) : Except String TableSchema :=
  match alGet? st.schemas t with
  | none => .error ("Table " ++ t ++ " does not exist")
  | some s => .ok s

/-- `StorageEngine.insert_row`: append one encoded line, return the
resulting line count as the rowid.  The internal `load_schema` call
can only fail when the schema file is absent, which the executor has
already ruled out before calling this. -/
def insert_row (st : DBState) (t : String) (row : RowMap) :
    Except String (Nat × DBState) :=
  match loadSchema st t with
  | .error e => .error e
  | .ok schema =>
      let lines := (alGet? st.tables t).getD []
      let lines' := lines ++ [encodeLine schema row]
      .ok (lines'.length, { st with tables := alSet st.tables t lines' })

/-- `StorageEngine.read_rows`: missing row file yields the empty list
without touching the schema; otherwise every line that is non-blank
after stripping is decoded, keeping its 1-based line number as rowid
(blank lines still consume a line number). -/
def read_rows (st : DBState) (t : String) : Except String (List Row) :=
  match alGet? st.tables t with
  | none => .ok []
  | some lines =>
      match loadSchema st t with
      | .error e => .error e
      | .ok schema =>
          (lines.enum.filterMap
              (fun p => if trimList p.2.toList = [] then none else some p)).mapM
            (fun p => (decodeLine schema p.2).map (fun vals => Row.mk vals (p.1 + 1)))

/-- `QueryResult`: the executor result record.  The Python constructor
runs `self.rows = rows or []`, so the stored attribute is always a
list: passing `None` (or an empty list) stores the empty list.  The
field is typed `Option` so that the spec claim `rows = null` is even
expressible; the smart constructor below can never produce `none`. -/
structure QueryResult where
  rows : Option (List RowMap)
  rowcount : Nat
deriving DecidableEq, Repr

/-- `QueryResult.__init__` with its `rows or []` defaulting. -/
def QueryResult.make (rows : Option (List RowMap)) (rowcount : Nat) : QueryResult :=
  { rows := some (match rows with | none => [] | some l => l), rowcount := rowcount }

/-- Parsed INSERT command record (`type = INSERT`). -/
structure InsertCmd where
  t_name : String
  columns : Option (List String)
  values : List Value
deriving DecidableEq, Repr

/-- Row-mapping preparation at the top of `_execute_insert`: positional
values are zipped against schema order after a count check, an explicit
column list is zipped as given (Python `zip` truncates at the shorter
list and no name is checked against the schema). -/
def prepare_row (schema : TableSchema) (cmd : InsertCmd) : Except String RowMap :=
  match cmd.columns with
  | none =>
      if cmd.values.length ≠ schema.columns.length then
        .error ("Expected " ++ toString schema.columns.length ++ " values, got "
          ++ toString cmd.values.length)
      else .ok (pyDict ((schema.columns.map (fun c => c.name)).zip cmd.values))
  | some cols => .ok (pyDict (cols.zip cmd.values))

/-- Primary-key duplicate scan of `_execute_insert`: the first PK
column that is present in the row, has a cached index, and whose value
already occurs as an index key produces the error message. -/
def pkDupError (st : DBState) (t : String) (schema : TableSchema) (row : RowMap) :
    Option String :=
  schema.primary_key.findSome? (fun pk =>
    if alHas row pk then
      match alGet? st.indexes t with
      | none => none
      | some tidx =>
          match alGet? tidx pk with
          | none => none
          | some idx =>
              if (vmGet? idx (rmVal row pk)).isSome then
                some ("Duplicate primary key value: " ++ pyStr (rmVal row pk))
              else none
    else none)

/-- In-memory index maintenance after a successful append: for every
cached index of the table whose column is present in the row, add
`(value, rowid)` (note: a null value is added too, the code does not
filter it). -/
def indexesAdd (st : DBState) (t : String) (row : RowMap) (rowid : Nat) : DBState :=
  match alGet? st.indexes t with
  | none => st
  | some tidx =>
      { st with indexes := alSet st.indexes t (tidx.map (fun p =>
          if alHas row p.1 then (p.1, idxAdd p.2 (rmVal row p.1) rowid) else p)) }

/-- Mirror image of `indexesAdd` for `_execute_update` /
`_execute_delete`: remove `(value, rowid)` from every cached index of
the table whose column is present in the row. -/
def indexesRemove (st : DBState) (t : String) (row : RowMap) (rowid : Nat) : DBState :=
  match alGet? st.indexes t with
  | none => st
  | some tidx =>
      { st with indexes := alSet st.indexes t (tidx.map (fun p =>
          if alHas row p.1 then (p.1, idxRemove p.2 (rmVal row p.1) rowid) else p)) }

/-- Loop writing each cached index of a table to its index file. -/
def saveIdxFiles (t : String) : List (String × IndexMap) → DBState → DBState
  | [], s => s
  | p :: rest, s => saveIdxFiles t rest { s with idxFiles := alSet s.idxFiles (t, p.1) p.2 }

/-- `index.save(storage)` for every cached index of the table: each
in-memory map overwrites its index file. -/
def saveTableIndexes (st : DBState) (t : String) : DBState :=
  match alGet? st.indexes t with
  | none => st
  | some tidx => saveIdxFiles t tidx st

/-- `QueryExecutor._execute_insert`.  The state is threaded through so
a failing step leaves exactly the mutations made before it. -/
def execute_insert (st : DBState) (cmd : InsertCmd) :
    Except String QueryResult × DBState :=
  match loadSchema st cmd.t_name with
  | .error e => (.error e, st)
  | .ok schema =>
      match prepare_row schema cmd with
      | .error e => (.error e, st)
      | .ok row =>
          if ¬ schema.validate_row row then
            (.error "Row violates schema constraints", st)
          else
            match pkDupError st cmd.t_name schema row with
            | some e => (.error e, st)
            | none =>
                match insert_row st cmd.t_name row with
                | .error e => (.error e, st)
                | .ok (rowid, st1) =>
                    let st2 := indexesAdd st1 cmd.t_name row rowid
                    (.ok (QueryResult.make none 1), saveTableIndexes st2 cmd.t_name)

/-- `QueryExecutor._rewrite_table`: truncate the row file and write
every row back in schema order with the same field encoding as
`insert_row`. -/
def rewrite_table (st : DBState) (t : String) (rows : List Row) :
    Except String DBState :=
  match loadSchema st t with
  | .error e => .error e
  | .ok schema =>
      .ok { st with tables := alSet st.tables t (rows.map (fun r => encodeLine schema r.values)) }

/-- Single-condition WHERE record used by UPDATE and DELETE (the
parsed operator is carried but the executor ignores it and always
compares for equality). -/
structure SimpleWhere where
  column : String
  op : String
  value : Value
deriving DecidableEq, Repr

/-- The WHERE test of `_execute_update` / `_execute_delete`:
`column in row.values and row.values[column] == value`; an absent
WHERE matches every row. -/
def matchesWhere (w : Option SimpleWhere) (row : Row) : Bool :=
  match w with
  | none => true
  | some c => alHas row.values c.column && pyEq (rmVal row.values c.column) c.value

/-- Parsed UPDATE command record. -/
structure UpdateCmd where
  t_name : String
  updates : List (String × Value)
  whereClause : Option SimpleWhere
deriving DecidableEq, Repr

/-- Parsed DELETE command record. -/
structure DeleteCmd where
  t_name : String
  whereClause : Option SimpleWhere
deriving DecidableEq, Repr

/-- Loop body of `_execute_update`: each matching row has its old
indexed values removed, the SET map applied, and the new values added
to the indexes; the accumulator carries the rewritten rows, the count
and the mutated state. -/
def updateLoop (t : String) (updates : List (String × Value)) (w : Option SimpleWhere) :
    List Row → List Row → Nat → DBState → List Row × Nat × DBState
  | [], done, cnt, st => (done, cnt, st)
  | row :: rest, done, cnt, st =>
      if matchesWhere w row then
        let st1 := indexesRemove st t row.values row.rowid
        let row' : Row := { row with values := updates.foldl (fun vs p => alSet vs p.1 p.2) row.values }
        let st2 := indexesAdd st1 t row'.values row'.rowid
        updateLoop t updates w rest (done ++ [row']) (cnt + 1) st2
      else
        updateLoop t updates w rest (done ++ [row]) cnt st

/-- `QueryExecutor._execute_update`. -/
def execute_update (st : DBState) (cmd : UpdateCmd) :
    Except String QueryResult × DBState :=
  match read_rows st cmd.t_name with
  | .error e => (.error e, st)
  | .ok rows =>
      match updateLoop cmd.t_name cmd.updates cmd.whereClause rows [] 0 st with
      | (newRows, cnt, st1) =>
          if cnt > 0 then
            match rewrite_table st1 cmd.t_name newRows with
            | .error e => (.error e, st1)
            | .ok st2 => (.ok (QueryResult.make none cnt), saveTableIndexes st2 cmd.t_name)
          else (.ok (QueryResult.make none cnt), st1)

/-- Loop body of `_execute_delete`: matching rows are dropped and
their indexed values removed, surviving rows are kept with their old
rowids. -/
def deleteLoop (t : String) (w : Option SimpleWhere) :
    List Row → List Row → Nat → DBState → List Row × Nat × DBState
  | [], kept, cnt, st => (kept, cnt, st)
  | row :: rest, kept, cnt, st =>
      if matchesWhere w row then
        deleteLoop t w rest kept (cnt + 1) (indexesRemove st t row.values row.rowid)
      else
        deleteLoop t w rest (kept ++ [row]) cnt st

/-- `QueryExecutor._execute_delete`: after the loop the surviving rows
are written back (which renumbers them on the next read, the stored
rowids in the cached indexes are not adjusted) and every index of the
table is saved. -/
def execute_delete (st : DBState) (cmd : DeleteCmd) :
    Except String QueryResult × DBState :=
  match read_rows st cmd.t_name with
  | .error e => (.error e, st)
  | .ok rows =>
      match deleteLoop cmd.t_name cmd.whereClause rows [] 0 st with
      | (newRows, cnt, st1) =>
          if cnt > 0 then
            match rewrite_table st1 cmd.t_name newRows with
            | .error e => (.error e, st1)
            | .ok st2 => (.ok (QueryResult.make none cnt), saveTableIndexes st2 cmd.t_name)
          else (.ok (QueryResult.make none cnt), st1)

/-- Loop removing the index file of each cached index of a table. -/
def removeIdxFiles (t : String) : List (String × IndexMap) → DBState → DBState
  | [], s => s
  | p :: rest, s => removeIdxFiles t rest { s with idxFiles := alRemove s.idxFiles (t, p.1) }

/-- `QueryExecutor._execute_drop_table`: remove the row file and the
schema file if present, then for a cached table entry remove its
index files and the cache entry.  No existence check is made for the
table itself: the command never fails. -/
def execute_drop_table (st : DBState) (t : String) :
    Except String QueryResult × DBState :=
  let st1 := { st with tables := alRemove st.tables t, schemas := alRemove st.schemas t }
  let st2 :=
    match alGet? st1.indexes t with
    | none => st1
    | some tidx =>
        let s := removeIdxFiles t tidx st1
        { s with indexes := alRemove s.indexes t }
  (.ok (QueryResult.make none 0), st2)

/-- `QueryExecutor._create_index`: register an empty index in the
cache, fill it from the rows currently on disk (values are added even
when null, matching the `column_name in row.values` guard), then save
it.  The cache registration happens before the read, so a read error
leaves it behind. -/
def create_index (st0 : DBState) (t col : String) : Except String Unit × DBState :=
  let st1 :=
    if (alGet? st0.indexes t).isSome then st0
    else { st0 with indexes := alSet st0.indexes t [] }
  let tidx1 := alSet ((alGet? st1.indexes t).getD []) col []
  let st2 := { st1 with indexes := alSet st1.indexes t tidx1 }
  match read_rows st2 t with
  | .error e => (.error e, st2)
  | .ok rows =>
      let idx := rows.foldl (fun m row =>
        if alHas row.values col then idxAdd m (rmVal row.values col) row.rowid else m) []
      let tidx2 := alSet ((alGet? st2.indexes t).getD []) col idx
      let st3 := { st2 with indexes := alSet st2.indexes t tidx2 }
      (.ok (), { st3 with idxFiles := alSet st3.idxFiles (t, col) idx })

/-- Parsed CREATE TABLE command record (column definitions carry the
same fields as `Column`). -/
structure CreateCmd where
  t_name : String
  columns : List Column
deriving DecidableEq, Repr

/-- Index-creation pass of `_execute_create_table` over the column
list, stopping at the first error. -/
def createIndexLoop (t : String) : List Column → DBState → Except String Unit × DBState
  | [], st => (.ok (), st)
  | col :: rest, st =>
      if col.primary_key || col.unique then
        match create_index st t col.name with
        | (.error e, s) => (.error e, s)
        | (.ok _, s) => createIndexLoop t rest s
      else createIndexLoop t rest st

/-- `QueryExecutor._execute_create_table`: save the schema, create an
empty row file, initialize the cache entry, then create one index per
PK/UNIQUE column. -/
def execute_create_table (st : DBState) (cmd : CreateCmd) :
    Except String QueryResult × DBState :=
  let schema : TableSchema := { name := cmd.t_name, columns := cmd.columns }
  let st1 := { st with schemas := alSet st.schemas cmd.t_name schema }
  let st2 := { st1 with tables := alSet st1.tables cmd.t_name [] }
  let st3 := { st2 with indexes := alSet st2.indexes cmd.t_name [] }
  match createIndexLoop cmd.t_name cmd.columns st3 with
  | (.error e, s) => (.error e, s)
  | (.ok _, s) => (.ok (QueryResult.make none 0), s)

/-- Command records for the five statements that return no result set
(`SELECT` is dispatched separately in the source and always carries
rows, so it is outside this sum). -/
inductive Command where
  | createTable (cmd : CreateCmd)
  | insert (cmd : InsertCmd)
  | update (cmd : UpdateCmd)
  | delete (cmd : DeleteCmd)
  | dropTable (t_name : String)
deriving DecidableEq, Repr

/-- `QueryExecutor.execute` dispatch for the mutating commands. -/
def execute (st : DBState) : Command → Except String QueryResult × DBState
  | .createTable c => execute_create_table st c
  | .insert c => execute_insert st c
  | .update c => execute_update st c
  | .delete c => execute_delete st c
  | .dropTable t => execute_drop_table st t

/-- Joined record `{left, right}`; either side is a full row or the
Python `None` (outer joins only). -/
structure JoinedRow where
  left : Option Row
  right : Option Row
deriving DecidableEq, Repr

/-- Hash map `right key value → [matching right rows]` built by the
join functions; buckets keep first-occurrence order, rows with an
absent or null key are skipped. -/
def buildRightMap (right_rows : List Row) (right_key : String) :
    List (Value × List Row) :=
  right_rows.foldl (fun m r =>
    match rmGetPy? r.values right_key with
    | none => m
    | some v =>
        match vmGet? m v with
        | none => m ++ [(v, [r])]
        | some bucket => vmSet m v (bucket ++ [r])) []

/-- `QueryExecutor._perform_left_join` on lists of actual rows (the
defensive `left_row is None` and `hasattr` branches of the source are
dead for rows coming from `read_rows` and have no counterpart here). -/
def perform_left_join (left_rows right_rows : List Row)
    (left_key right_key : String) : List JoinedRow :=
  let right_map := buildRightMap right_rows right_key
  left_rows.foldl (fun acc lr =>
    match rmGetPy? lr.values left_key with
    | some v =>
        match vmGet? right_map v with
        | some bucket => acc ++ bucket.map (fun rr => { left := some lr, right := some rr })
        | none => acc ++ [{ left := some lr, right := none }]
    | none => acc ++ [{ left := some lr, right := none }]) []

/-- `QueryExecutor._perform_right_join`: swap the inputs (and the key
columns), run the LEFT join, then swap `left`/`right` inside every
joined record. -/
def perform_right_join (left_rows right_rows : List Row)
    (left_key right_key : String) : List JoinedRow :=
  (perform_left_join right_rows left_rows right_key left_key).map
    (fun jr => { left := jr.right, right := jr.left })

/-- ORDER BY column entries.  The source builds them with
`col.strip().lower` — a bound-method reference, not a call — so the
entries are method objects, modelled by `lowerMethod`; an actual
string key would be `name`. -/
inductive OrderCol where
  | name (s : String)
  | lowerMethod (s : String)
deriving DecidableEq, Repr

/-- `_parse_select` ORDER BY handling (parser.py lines 256-258):
`[col.strip().lower for col in order_by_clause.split(",")]`. -/
def parseOrderBy (clause : String) : List OrderCol :=
  ((splitOnChar ',' clause.toList).map List.asString).map
    (fun col => OrderCol.lowerMethod (pyTrim col))

/-- `row.get(col)` inside `sort_key`: a method object is never equal
to any string key of the row dict, so the lookup yields `None`. -/
def ocGet (row : RowMap) (c : OrderCol) : Option Value :=
  match c with
  | .name s => rmGetPy? row s
  | .lowerMethod _ => none

/-- The `sort_key` closure of `_apply_order_by`: null (or missing)
sorts last via the tag 1, other values compare as lower-cased
strings. -/
def sortKey (order_by : List OrderCol) (row : RowMap) : List (Nat × String) :=
  order_by.map (fun col =>
    match ocGet row col with
    | none => (1, "")
    | some v => (0, pyLower (pyStr v)))

/-- Python tuple comparison on one key component. -/
def pairLT (x y : Nat × String) : Bool :=
  x.1 < y.1 || (x.1 == y.1 && decide (x.2 < y.2))

/-- Python list comparison (used by `sorted` on the key lists):
first differing component decides, a strict prefix is smaller. -/
def keyLE : List (Nat × String) → List (Nat × String) → Bool
  | [], _ => true
  | _ :: _, [] => false
  | x :: xs, y :: ys => if x = y then keyLE xs ys else pairLT x y

/-- Stable insertion into an already-processed list: the new element
goes after every element whose key is less or equal, which reproduces
the output of any stable sort (Python `sorted`). -/
def stableInsert {α : Type} (le : α → α → Bool) (x : α) : List α → List α
  | [] => [x]
  | y :: ys => if le y x then y :: stableInsert le x ys else x :: y :: ys

/-- Python `sorted(rows, key=...)`: stable sort modelled by repeated
stable insertion in input order. -/
def pySorted {α : Type} (le : α → α → Bool) (l : List α) : List α :=
  l.foldl (fun acc x => stableInsert le x acc) []

/-- `QueryExecutor._apply_order_by`. -/
def apply_order_by (rows : List RowMap) (order_by : List OrderCol) : List RowMap :=
  if order_by = [] || rows = [] then rows
  else pySorted (fun a b => keyLE (sortKey order_by a) (sortKey order_by b)) rows

/-- Regex tokens for the LIKE pattern after
`str(expected).replace("%", ".*")`: a literal character or the
wildcard `.*`.  The translation below maps every non-percent
character to a literal, which is faithful exactly when the pattern
contains no other regex metacharacter — the LIKE theorem assumes
that. -/
inductive RTok where
  | lit (c : Char)
  | star
deriving DecidableEq, Repr

/-- Pattern translation `pattern.replace("%", ".*")` viewed as a
token list. -/
def likeTranslate (p : String) : List RTok :=
  p.toList.map (fun c => if c = '%' then RTok.star else RTok.lit c)

/-- All suffixes of a character list, the given list first and the
empty suffix last. -/
def suffixes : List Char → List (List Char)
  | [] => [[]]
  | c :: rest => (c :: rest) :: suffixes rest

/-- Existence semantics of `re.match(pattern, s, re.IGNORECASE)` for
the translated pattern: anchored at the start of `s`, the rest of `s`
unconstrained, characters compared lower-cased.  A `.*` matches an
arbitrary amount of input, i.e. the rest of the pattern must match
some suffix. -/
def reMatch : List RTok → List Char → Bool
  | [], _ => true
  | .lit _ :: _, [] => false
  | .lit c :: ts, x :: xs => (x.toLower == c.toLower) && reMatch ts xs
  | .star :: ts, xs => (suffixes xs).any (fun s => reMatch ts s)

/-- The LIKE branch of `_evaluate_condition` (executor.py lines
446-452): null on either side is false, otherwise the translated
pattern is matched as an anchored, case-insensitive non-full match
against `str(actual)`. -/
def likeValue (expected actual : Value) : Bool :=
  match actual, expected with
  | .null, _ => false
  | _, .null => false
  | a, e => reMatch (likeTranslate (pyStr e)) (pyStr a).toList

/-- Integer-literal test, the regex `-?\d+` anchored on both sides. -/
def isIntLit (s : String) : Bool :=
  match s.toList with
  | '-' :: rest => rest ≠ [] && rest.all Char.isDigit
  | cs => cs ≠ [] && cs.all Char.isDigit

/-- Float-literal test, the regex `-?\d+\.\d+` anchored on both sides. -/
def isFloatLit (s : String) : Bool :=
  match splitOnChar '.' (match s.toList with | '-' :: rest => rest | cs => cs) with
  | [a, b] => a ≠ [] && b ≠ [] && a.all Char.isDigit && b.all Char.isDigit
  | _ => false

/-- `int(s)` on a string already known to match `-?\d+`. -/
def pyIntOf (s : String) : Int :=
  match s.toList with
  | '-' :: rest => -(digitsVal rest : Int)
  | cs => (digitsVal cs : Int)

/-- `SQLParser._parse_value`: NULL, quote-stripped strings, booleans,
integers, floats, otherwise the bare text as a string. -/
def parse_value (value : String) : Value :=
  let v := pyTrim value
  if pyUpper v = "NULL" then .null
  else if (startsWithList ['\''] v.toList && endsWithList ['\''] v.toList)
      || (startsWithList ['"'] v.toList && endsWithList ['"'] v.toList) then
    .str ((v.toList.drop 1).dropLast.asString)
  else if pyUpper v = "TRUE" then .bool true
  else if pyUpper v = "FALSE" then .bool false
  else if isIntLit v then .int (pyIntOf v)
  else if isFloatLit v then .float v
  else .str v

/-- Substring test on char lists (Python `needle in hay`). -/
def listContainsSub (needle : List Char) : List Char → Bool
  | [] => needle.isPrefixOf []
  | c :: rest => needle.isPrefixOf (c :: rest) || listContainsSub needle rest

/-- Python `needle in hay` for strings. -/
def strContains (hay needle : String) : Bool :=
  listContainsSub needle.toList hay.toList

/-- Attempt to match the separator regex `\s+AND\S+` (with
`re.IGNORECASE`) at the head of the input, returning the remainder
after the match.  This is the typo in `_parse_where_clause`
(parser.py line 338): the trailing `\S+` demands a non-whitespace run
directly after `AND`, so the ordinary ` AND ` of a two-clause
conjunction never matches. -/
def matchAndSep (cs : List Char) : Option (List Char) :=
  if (cs.takeWhile Char.isWhitespace).isEmpty then none
  else
    match cs.drop (cs.takeWhile Char.isWhitespace).length with
    | a :: n :: d :: r2 =>
        if a.toUpper = 'A' ∧ n.toUpper = 'N' ∧ d.toUpper = 'D' then
          if (r2.takeWhile (fun c => ¬ c.isWhitespace)).isEmpty then none
          else some (r2.drop (r2.takeWhile (fun c => ¬ c.isWhitespace)).length)
        else none
    | _ => none

/-- Attempt to match the separator regex `\s+OR\s+` (IGNORECASE) at
the head of the input, returning the remainder after the match. -/
def matchOrSep (cs : List Char) : Option (List Char) :=
  if (cs.takeWhile Char.isWhitespace).isEmpty then none
  else
    match cs.drop (cs.takeWhile Char.isWhitespace).length with
    | o :: r :: r2 =>
        if o.toUpper = 'O' ∧ r.toUpper = 'R' then
          if (r2.takeWhile Char.isWhitespace).isEmpty then none
          else some (r2.drop (r2.takeWhile Char.isWhitespace).length)
        else none
    | _ => none

/-- `re.split` driver: scan left to right, at every position first
try the separator matcher; on a match emit the accumulated part and
resume after the separator.  The fuel argument only bounds the
recursion; both separator regexes consume at least one character per
match, so fuel equal to the input length is never exhausted. -/
def reSplitGo (m : List Char → Option (List Char)) :
    Nat → List Char → List Char → List (List Char)
  | _, [], acc => [acc.reverse]
  | 0, cs, acc => [acc.reverse ++ cs]
  | fuel + 1, c :: rest, acc =>
      match m (c :: rest) with
      | some rem => acc.reverse :: reSplitGo m fuel rem []
      | none => reSplitGo m fuel rest (c :: acc)

/-- `re.split(r"\s+AND\S+", s, flags=re.IGNORECASE)`. -/
def reSplitAnd (s : String) : List String :=
  (reSplitGo matchAndSep s.toList.length s.toList []).map List.asString

/-- `re.split(r"\s+OR\s+", s, flags=re.IGNORECASE)`. -/
def reSplitOr (s : String) : List String :=
  (reSplitGo matchOrSep s.toList.length s.toList []).map List.asString

/-- Word characters of the regex class `\w` (ASCII range). -/
def isWordChar (c : Char) : Bool :=
  c.isAlphanum || c = '_'

/-- Characters of the regex class `[=<>!]`. -/
def isOpChar (c : Char) : Bool :=
  c = '=' || c = '<' || c = '>' || c = '!'

/-- Operator alternation `[=<>!]+|LIKE|IN` (IGNORECASE) at the head of
the input: returns the matched operator text and the remainder. -/
def matchCondOp (r1 : List Char) : Option (List Char × List Char) :=
  match r1.takeWhile isOpChar with
  | [] =>
      if (r1.take 4).map Char.toUpper = "LIKE".toList then some (r1.take 4, r1.drop 4)
      else if (r1.take 2).map Char.toUpper = "IN".toList then some (r1.take 2, r1.drop 2)
      else none
  | syms => some (syms, r1.drop syms.length)

/-- Tail of the condition regex, `\s*([=<>!]+|LIKE|IN)\s*(.+)`, applied
after a candidate for the column group: skip whitespace, match the
operator, skip whitespace, capture the non-empty rest.  When all that
follows the operator is whitespace, the greedy `\s*` backtracks one
character so `(.+)` captures the final character (conditions carry no
newline, so `.` always applies). -/
def matchCondAt (w : List Char) (rest : List Char) : Option (String × String × String) :=
  match matchCondOp (rest.dropWhile Char.isWhitespace) with
  | none => none
  | some (op, r2) =>
      match r2.dropWhile Char.isWhitespace with
      | [] =>
          match r2.getLast? with
          | none => none
          | some c => some (w.asString, op.asString, String.mk [c])
      | r3 => some (w.asString, op.asString, r3.asString)

/-- The pattern `(\w+)\s*([=<>!]+|LIKE|IN)\s*(.+)`: the greedy `\w+`
backtracks from the maximal word run until the rest of the pattern
matches (only relevant when `LIKE`/`IN` abut the column name). -/
def matchSimpleCondPlain (cs : List Char) : Option (String × String × String) :=
  match cs.takeWhile isWordChar with
  | [] => none
  | run =>
      (List.range run.length).findSome? (fun j =>
        matchCondAt (run.take (run.length - j))
          (run.drop (run.length - j) ++ cs.drop run.length))

/-- The fallback pattern `(\w+\.\w+)\s*([=<>!]+|LIKE|IN)\s*(.+)` for
qualified column names. -/
def matchSimpleCondQual (cs : List Char) : Option (String × String × String) :=
  match cs.takeWhile isWordChar with
  | [] => none
  | run1 =>
      match cs.drop run1.length with
      | '.' :: rest2 =>
          match rest2.takeWhile isWordChar with
          | [] => none
          | run2 =>
              (List.range run2.length).findSome? (fun j =>
                matchCondAt (run1 ++ '.' :: run2.take (run2.length - j))
                  (run2.drop (run2.length - j) ++ rest2.drop run2.length))
      | _ => none

/-- Parsed WHERE trees: a flat conjunction, a flat disjunction, or a
single leaf condition. -/
inductive Cond where
  | and (conditions : List Cond)
  | or (conditions : List Cond)
  | condition (column : String) (operator : String) (value : Value)

/-- `SQLParser._parse_simple_condition`: try the plain pattern, then
the qualified one; lower-case the column, upper-case the operator and
parse the (stripped) literal. -/
def parse_simple_condition (condition : String) : Except String Cond :=
  match (match matchSimpleCondPlain condition.toList with
         | some r => some r
         | none => matchSimpleCondQual condition.toList) with
  | none => .error ("Invalid condition: " ++ condition)
  | some (col, op, raw) =>
      .ok (.condition (pyLower col) (pyUpper op) (parse_value (pyTrim raw)))

/-- `SQLParser._parse_where_clause`: test for ` AND ` (upper-cased)
first, split with the (typo) separator `\s+AND\S+`, else test for
` OR ` and split with `\s+OR\s+`, else a single condition. -/
def parse_where_clause (whereClause : String) : Except String Cond :=
  let wc := pyTrim whereClause
  if strContains (pyUpper wc) " AND " then
    match (reSplitAnd wc).mapM (fun p => parse_simple_condition (pyTrim p)) with
    | .error e => .error e
    | .ok cs => .ok (Cond.and cs)
  else if strContains (pyUpper wc) " OR " then
    match (reSplitOr wc).mapM (fun p => parse_simple_condition (pyTrim p)) with
    | .error e => .error e
    | .ok cs => .ok (Cond.or cs)
  else parse_simple_condition wc

/-- State right after the storage append of `insert_row st t row`
(used to state executor lemmas). -/
def appendRowState (st : DBState) (t : String) (schema : TableSchema) (row : RowMap) : DBState :=
  { st with tables := alSet st.tables t (((alGet? st.tables t).getD []) ++ [encodeLine schema row]) }

/-- The rowid `insert_row` returns: the line count after the append. -/
def newRowid (st : DBState) (t : String) (schema : TableSchema) (row : RowMap) : Nat :=
  (((alGet? st.tables t).getD []) ++ [encodeLine schema row]).length

/-- Number of rows a mutating command affects, stated independently of
the executor loops: an insert touches one row, update/delete touch the
rows of the current table contents that match the WHERE test, DDL
commands touch none. -/
def commandAffected (st : DBState) : Command → Nat
  | .createTable _ => 0
  | .insert _ => 1
  | .update c =>
      match read_rows st c.t_name with
      | .ok rows => rows.countP (fun r => matchesWhere c.whereClause r)
      | .error _ => 0
  | .delete c =>
      match read_rows st c.t_name with
      | .ok rows => rows.countP (fun r => matchesWhere c.whereClause r)
      | .error _ => 0
  | .dropTable _ => 0

/-- Key lists of all four state components are duplicate-free.  Every
state the executor builds from an empty directory has this shape
(Python file systems and dicts cannot hold duplicate names). -/
def keysNodup (st : DBState) : Prop :=
  (st.schemas.map Prod.fst).Nodup ∧ (st.tables.map Prod.fst).Nodup ∧
    (st.idxFiles.map Prod.fst).Nodup ∧ (st.indexes.map Prod.fst).Nodup

/-- Every index file of table `t` has its column present in the
in-memory cache entry for `t` (true whenever the cache was populated
by the same process that created the files). -/
def idxFilesCovered (st : DBState) (t : String) : Bool :=
  st.idxFiles.all (fun e =>
    !(e.1.1 == t) || ((alGet? st.indexes t).getD []).any (fun ce => ce.1 == e.1.2))

/-- Regex metacharacters of Python `re` (the LIKE translation treats
every non-percent character as a literal, which is faithful only when
none of these occurs in the pattern). -/
def isRegexMeta (c : Char) : Bool :=
  c = '.' || c = '^' || c = '$' || c = '*' || c = '+' || c = '?' ||
    c.toNat = 123 || c.toNat = 125 || c = '[' || c = ']' || c = '\\' ||
    c = '|' || c = '(' || c = ')'

/-- Scenario: table `users` with a single INTEGER primary-key column
`id` (as created by `CREATE TABLE users (id INT PRIMARY KEY)`). -/
def usersSchema : TableSchema :=
  { name := "users", columns := [{ name := "id", dtype := .INTEGER, primary_key := true, unique := true }] }

/-- The index contents after inserting ids 1 and 2: value `i` maps to
the singleton rowid set `{i}`. -/
def usersIdx : IndexMap :=
  [(.int 1, [1]), (.int 2, [2])]

/-- Scenario state: `users` holds the rows `1` and `2` (rowids 1 and
2), the `id` index is cached and saved. -/
def usersState : DBState :=
  { schemas := [("users", usersSchema)],
    tables := [("users", ["1", "2"])],
    idxFiles := [(("users", "id"), usersIdx)],
    indexes := [("users", [("id", usersIdx)])] }

/-- Scenario: a one-column VARCHAR table for the round-trip claim. -/
def varcharSchema : TableSchema :=
  { name := "t", columns := [{ name := "c", dtype := .VARCHAR }] }

/-- Scenario state: the one-column table exists and is empty. -/
def varcharState : DBState :=
  { schemas := [("t", varcharSchema)], tables := [("t", [])] }

/-- Scenario: a two-column all-nullable table without primary key. -/
def abSchema : TableSchema :=
  { name := "t",
    columns := [{ name := "a", dtype := .INTEGER }, { name := "b", dtype := .VARCHAR }] }

/-- Scenario state: the two-column table exists and is empty. -/
def abState : DBState :=
  { schemas := [("t", abSchema)], tables := [("t", [])] }

/-- DELETE command of the stale-index scenario:
`DELETE FROM users WHERE id = 1`. -/
def deleteId1 : DeleteCmd :=
  { t_name := "users", whereClause := some { column := "id", op := "=", value := .int 1 } }

/-- INSERT command of the C8 witness scenario:
`INSERT INTO t (b) VALUES ("x")`. -/
def insertB : InsertCmd :=
  { t_name := "t", columns := some ["b"], values := [.str "x"] }

theorem alGet?_alSet {α β : Type} [BEq α] [LawfulBEq α] (m : List (α × β)) (k k' : α) (v : β) :
    alGet? (alSet m k v) k' = if k == k' then some v else alGet? m k' := by
  induction m with
  | nil => simp [alSet, alGet?]
  | cons p rest ih =>
      obtain ⟨k0, w⟩ := p
      by_cases h0 : k0 == k
      · have hk : k0 = k := eq_of_beq h0
        subst hk
        by_cases h1 : k0 == k' <;> simp [alSet, alGet?, h1]
      · have hne : k0 ≠ k := fun hh => h0 (by simp [hh])
        by_cases h1 : k0 == k'
        · have hk' : k0 = k' := eq_of_beq h1
          subst hk'
          have : (k == k0) = false := by
            cases hkk : k == k0
            · rfl
            · exact absurd (eq_of_beq hkk).symm hne
          simp [alSet, alGet?, h0, h1, this]
        · simp [alSet, alGet?, h0, h1, ih]

theorem alGet?_isSome_iff_mem {α β : Type} [BEq α] [LawfulBEq α]
    (m : List (α × β)) (k : α) :
    (alGet? m k).isSome = true ↔ k ∈ m.map Prod.fst := by
  induction m with
  | nil => simp [alGet?]
  | cons p rest ih =>
      obtain ⟨k0, w⟩ := p
      by_cases h0 : k0 == k
      · have hk : k0 = k := eq_of_beq h0
        subst hk
        simp [alGet?]
      · have hne : k0 ≠ k := fun hh => h0 (by simp [hh])
        simp [alGet?, h0, ih, hne.symm]

theorem alRemove_sublist {α β : Type} [BEq α] (m : List (α × β)) (k : α) :
    (alRemove m k).Sublist m := by
  induction m with
  | nil => simp [alRemove]
  | cons p rest ih =>
      by_cases h0 : p.1 == k
      · simp only [alRemove, h0, if_true]
        exact List.sublist_cons_of_sublist p (List.Sublist.refl rest)
      · simp only [alRemove, h0, if_false]
        exact List.Sublist.cons₂ p ih

theorem nodup_keys_alRemove {α β : Type} [BEq α] (m : List (α × β)) (k : α)
    (h : (m.map Prod.fst).Nodup) : ((alRemove m k).map Prod.fst).Nodup :=
  ((alRemove_sublist m k).map Prod.fst).nodup h

theorem alGet?_alRemove_self {α β : Type} [BEq α] [LawfulBEq α]
    (m : List (α × β)) (k : α) (h : (m.map Prod.fst).Nodup) :
    alGet? (alRemove m k) k = none := by
  induction m with
  | nil => simp [alRemove, alGet?]
  | cons p rest ih =>
      obtain ⟨k0, w⟩ := p
      simp only [List.map_cons, List.nodup_cons] at h
      by_cases h0 : k0 == k
      · have hk : k0 = k := eq_of_beq h0
        subst hk
        simp only [alRemove, h0, if_true]
        cases hh : alGet? rest k0 with
        | none => rfl
        | some v =>
            exact absurd ((alGet?_isSome_iff_mem rest k0).mp (by simp [hh])) h.1
      · simp [alRemove, alGet?, h0, ih h.2]

theorem mem_alRemove_key_ne {α β : Type} [BEq α] [LawfulBEq α]
    (m : List (α × β)) (k : α) (e : α × β) :
    (m.map Prod.fst).Nodup → e ∈ alRemove m k → e.1 ≠ k := by
  induction m with
  | nil => intro _ he; simp [alRemove] at he
  | cons p rest ih =>
      intro h he
      obtain ⟨k0, w⟩ := p
      simp only [List.map_cons, List.nodup_cons] at h
      by_cases h0 : k0 == k
      · have hk : k0 = k := eq_of_beq h0
        subst hk
        simp only [alRemove, h0, if_true] at he
        intro hek
        exact h.1 (hek ▸ List.mem_map_of_mem Prod.fst he)
      · simp [alRemove, h0] at he
        rcases he with he1 | he1
        · rw [he1]
          intro hh
          exact h0 (beq_iff_eq.mpr hh)
        · exact ih h.2 he1

theorem pyDictGo_isSome_mem (m : RowMap) (ps : List (String × Value)) (k : String)
    (h : (alGet? (pyDictGo m ps) k).isSome = true) :
    (alGet? m k).isSome = true ∨ k ∈ ps.map Prod.fst := by
  induction ps generalizing m with
  | nil => exact Or.inl h
  | cons p rest ih =>
      rcases ih (alSet m p.1 p.2) h with h1 | h1
      · rw [alGet?_alSet] at h1
        by_cases h0 : p.1 == k
        · refine Or.inr ?_
          rw [List.map_cons, ← eq_of_beq h0]
          exact List.mem_cons_self _ _
        · rw [if_neg (by simp [h0])] at h1
          exact Or.inl h1
      · exact Or.inr (List.mem_cons_of_mem _ h1)

theorem alGet?_pyDict_zip_eq_none (cols : List String) (vals : List Value)
    (c : String) (hc : c ∉ cols) :
    alGet? (pyDict (cols.zip vals)) c = none := by
  cases hh : alGet? (pyDict (cols.zip vals)) c with
  | none => rfl
  | some v =>
      exfalso
      rcases pyDictGo_isSome_mem [] (cols.zip vals) c (by simp [pyDict] at hh ⊢; simp [hh]) with h1 | h1
      · simp [alGet?] at h1
      · rcases List.mem_map.mp h1 with ⟨p, hp, hps⟩
        exact hc (hps ▸ (List.of_mem_zip hp).1)

theorem validate_row_of_all_nullable (schema : TableSchema) (row : RowMap)
    (h : schema.columns.all (fun col => col.nullable) = true) :
    schema.validate_row row = true := by
  rw [TableSchema.validate_row, List.all_eq_true]
  intro col hcol
  rw [List.all_eq_true] at h
  simp [h col hcol]

theorem filter_pk_nil : ∀ l : List Column,
    (∀ c ∈ l, c.primary_key = false) → l.filter (fun c => c.primary_key) = [] := by
  intro l
  induction l with
  | nil => intro _; rfl
  | cons c rest ih =>
      intro h
      have hc := h c (List.mem_cons_self c rest)
      rw [List.filter_cons, hc]
      simp only [Bool.false_eq_true, if_false]
      exact ih (fun x hx => h x (List.mem_cons_of_mem c hx))

theorem primary_key_eq_nil_of_no_pk (schema : TableSchema)
    (h : schema.columns.all (fun col => !col.primary_key) = true) :
    schema.primary_key = [] := by
  rw [TableSchema.primary_key]
  rw [List.all_eq_true] at h
  have hf := filter_pk_nil schema.columns (fun c hc => by
    have := h c hc
    simpa using this)
  simp [hf]

theorem findSome?_exists {α β : Type} (f : α → Option β) (P : β → Prop)
    (hshape : ∀ a b, f a = some b → P b) (l : List α) (x : α) (hx : x ∈ l)
    (hfx : (f x).isSome = true) :
    ∃ b, l.findSome? f = some b ∧ P b := by
  induction l with
  | nil => simp at hx
  | cons a rest ih =>
      cases hfa : f a with
      | some b => exact ⟨b, by simp [List.findSome?_cons, hfa], hshape a b hfa⟩
      | none =>
          rcases List.mem_cons.mp hx with hax | hax
          · subst hax
            rw [hfa] at hfx
            simp at hfx
          · rcases ih hax with ⟨b, hb, hPb⟩
            exact ⟨b, by simp [List.findSome?_cons, hfa, hb], hPb⟩

theorem indexesAdd_tables (st : DBState) (t : String) (row : RowMap) (rowid : Nat) :
    (indexesAdd st t row rowid).tables = st.tables := by
  unfold indexesAdd
  cases alGet? st.indexes t <;> rfl

theorem saveIdxFiles_tables (t : String) (l : List (String × IndexMap)) (st : DBState) :
    (saveIdxFiles t l st).tables = st.tables := by
  induction l generalizing st with
  | nil => rfl
  | cons p rest ih => simp [saveIdxFiles, ih]

theorem saveTableIndexes_tables (st : DBState) (t : String) :
    (saveTableIndexes st t).tables = st.tables := by
  unfold saveTableIndexes
  cases alGet? st.indexes t with
  | none => rfl
  | some tidx => exact saveIdxFiles_tables t tidx st

/-- Shape of a successful `_execute_insert` run: schema loads, the row
mapping is built, validation and the duplicate scan pass, the line is
appended, the in-memory indexes are extended and saved. -/
theorem execute_insert_ok (st : DBState) (cmd : InsertCmd) (schema : TableSchema)
    (row : RowMap)
    (hs : loadSchema st cmd.t_name = .ok schema)
    (hr : prepare_row schema cmd = .ok row)
    (hv : schema.validate_row row = true)
    (hp : pkDupError st cmd.t_name schema row = none) :
    execute_insert st cmd =
      (.ok (QueryResult.make none 1),
       saveTableIndexes (indexesAdd (appendRowState st cmd.t_name schema row) cmd.t_name row (newRowid st cmd.t_name schema row)) cmd.t_name) := by
  unfold execute_insert insert_row appendRowState newRowid
  simp only [hs, hr, hp]
  simp [hv]

/-- C3: the claim says row encoding/decoding round-trips every
supported value, in particular a string containing a comma, written
with the escape backslash-comma, reads back unchanged.  The code
violates this: `read_rows` splits the stripped line on every comma
before reversing the escape, so inserting `a,b` into a one-column
VARCHAR table stores the line `a\,b` but reads back the value `a\`
(the fragment up to the split, with the dangling escape backslash;
the fragment `b` is dropped by the zip truncation). -/
theorem C3_comma_roundtrip_fails :
    insert_row varcharState "t" [("c", Value.str "a,b")] =
      .ok (1, { varcharState with tables := [("t", ["a\\,b"])] }) ∧
    read_rows { varcharState with tables := [("t", ["a\\,b"])] } "t" =
      .ok [{ values := [("c", Value.str "a\\")], rowid := 1 }] ∧
    Value.str "a\\" ≠ Value.str "a,b" := by
  exact ⟨by decide, by decide, by decide⟩

/-- C4: the claim says the WHERE clause `a = 1 AND b = 2` parses to a
conjunction whose children are the conditions `a = 1` and `b = 2`.
The separator regex of the source contains the typo `\s+AND\S+`
(instead of `\s+AND\s+`), which never matches an ordinary ` AND `, so
the split leaves the clause whole: the result is a conjunction record
with the single child condition `a = "1 AND b = 2"`. -/
theorem C4_and_split_never_splits :
    parse_where_clause "a = 1 AND b = 2" =
      .ok (Cond.and [Cond.condition "a" "=" (Value.str "1 AND b = 2")]) ∧
    parse_where_clause "a = 1 AND b = 2" ≠
      .ok (Cond.and [Cond.condition "a" "=" (Value.int 1),
                     Cond.condition "b" "=" (Value.int 2)]) := by
  constructor
  · rfl
  · intro h
    rw [show parse_where_clause "a = 1 AND b = 2" =
      .ok (Cond.and [Cond.condition "a" "=" (Value.str "1 AND b = 2")]) from rfl] at h
    simp at h

/-- C5: the claim says ORDER BY sorts the projected rows ascending by
lower-cased string comparison with nulls last.  The source builds the
column list with the unbound method reference `col.strip().lower`
(missing call parentheses), so every entry is a method object, every
row lookup misses, every sort key is equal, and the stable sort
returns the rows in their original order: the rows `b`, `a` stay
`b`, `a`. -/
theorem C5_order_by_is_noop :
    parseOrderBy "name" = [OrderCol.lowerMethod "name"] ∧
    apply_order_by [[("name", Value.str "b")], [("name", Value.str "a")]] (parseOrderBy "name") =
      [[("name", Value.str "b")], [("name", Value.str "a")]] ∧
    [[("name", Value.str "b")], [("name", Value.str "a")]] ≠
      [[("name", Value.str "a")], [("name", Value.str "b")]] := by
  exact ⟨by decide, by decide, by decide⟩

/-- C2: the claim states the index/table consistency invariant also
after a DELETE that removes some but not all rows.  The code violates
it: deleting `id = 1` from `users` rewrites the file so the surviving
row (`id = 2`) becomes line 1 (rowid 1), but the cached and saved
index still maps value 2 to the old rowid 2 — so the surviving row's
rowid 1 is not in the bucket and the stale rowid 2 is an extra entry
with no corresponding row. -/
theorem C2_delete_leaves_stale_index_rowids :
    (execute_delete usersState deleteId1).1 = .ok (QueryResult.make none 1) ∧
    read_rows (execute_delete usersState deleteId1).2 "users" =
      .ok [{ values := [("id", Value.int 2)], rowid := 1 }] ∧
    alGet? (execute_delete usersState deleteId1).2.indexes "users" =
      some [("id", [(Value.int 2, [2])])] ∧
    alGet? (execute_delete usersState deleteId1).2.idxFiles ("users", "id") =
      some [(Value.int 2, [2])] ∧
    (1 ∈ (vmGet? [(Value.int 2, [2])] (Value.int 2)).getD []) = False ∧
    (2 ∈ (vmGet? [(Value.int 2, [2])] (Value.int 2)).getD []) = True := by
  exact ⟨by decide, by decide, by decide, by decide, by decide, by decide⟩

/-- C6 counterexample: the claim says the second of two consecutive
`DROP TABLE users` fails with a not-found error.  In the source
`_execute_drop_table` never checks that the table exists: the first
drop removes the row file, the schema file and the index file, and
the second drop succeeds again with rowcount 0. -/
theorem C6_second_drop_does_not_fail :
    alGet? (execute_drop_table usersState "users").2.tables "users" = none ∧
    alGet? (execute_drop_table usersState "users").2.schemas "users" = none ∧
    alGet? (execute_drop_table usersState "users").2.idxFiles ("users", "id") = none ∧
    (execute_drop_table (execute_drop_table usersState "users").2 "users").1 =
      .ok (QueryResult.make none 0) := by
  exact ⟨by decide, by decide, by decide, by decide⟩

/-- C8 counterexample: the claim says mutating commands return a
result with `rows = null`.  `QueryResult.__init__` runs
`self.rows = rows or []`, so the attribute is always a list: a
successful INSERT returns `rows = []`, not null. -/
theorem C8_insert_result_rows_not_null :
    (execute abState (Command.insert insertB)).1 = .ok (QueryResult.make none 1) ∧
    (QueryResult.make none 1).rows = some [] ∧
    (QueryResult.make none 1).rows ≠ none := by
  refine ⟨by decide, rfl, by simp [QueryResult.make]⟩

/-- C7: the RIGHT join is exactly the LEFT join of the swapped inputs
(and swapped key columns) with the `left`/`right` components exchanged
inside each joined record, position by position. -/
theorem C7_right_join_is_swapped_left_join (L R : List Row) (lk rk : String) (i : Nat) :
    (perform_right_join L R lk rk)[i]? =
      ((perform_left_join R L rk lk)[i]?).map
        (fun jr => { left := jr.right, right := jr.left }) := by
  simp [perform_right_join, List.getElem?_map]

/-- C1: with the primary-key index present in the executor cache, an
INSERT whose prepared row carries a PK value that already occurs as a
key of that index fails with the duplicate-primary-key error, and the
returned state is exactly the input state: neither the table file nor
any index (in memory or on disk) is touched, because the duplicate
scan runs before the storage append. -/
theorem C1_insert_duplicate_pk_fails_without_mutation
    (st : DBState) (cmd : InsertCmd) (schema : TableSchema) (row : RowMap)
    (pk : String) (tidx : List (String × IndexMap)) (idx : IndexMap)
    (hs : loadSchema st cmd.t_name = .ok schema)
    (hr : prepare_row schema cmd = .ok row)
    (hv : schema.validate_row row = true)
    (hpk : pk ∈ schema.primary_key)
    (hhas : alHas row pk = true)
    (hti : alGet? st.indexes cmd.t_name = some tidx)
    (hci : alGet? tidx pk = some idx)
    (hdup : (vmGet? idx (rmVal row pk)).isSome = true) :
    ∃ v, execute_insert st cmd =
      (.error ("Duplicate primary key value: " ++ pyStr v), st) := by
  have hex := findSome?_exists
    (fun pk => if alHas row pk then
        match alGet? st.indexes cmd.t_name with
        | none => none
        | some tidx =>
            match alGet? tidx pk with
            | none => none
            | some idx =>
                if (vmGet? idx (rmVal row pk)).isSome then
                  some ("Duplicate primary key value: " ++ pyStr (rmVal row pk))
                else none
      else none)
    (fun b => ∃ v, b = "Duplicate primary key value: " ++ pyStr v)
    ?_ schema.primary_key pk hpk ?_
  · rcases hex with ⟨b, hb, v, hbv⟩
    have hpd : pkDupError st cmd.t_name schema row = some b := hb
    refine ⟨v, ?_⟩
    unfold execute_insert
    simp only [hs, hr, hpd]
    simp [hv, hbv]
  · intro a b hab
    by_cases h1 : alHas row a
    · simp only [h1, if_true] at hab
      cases h2 : alGet? st.indexes cmd.t_name with
      | none =>
          simp only [h2] at hab
          exact Option.noConfusion hab
      | some tx =>
          simp only [h2] at hab
          cases h3 : alGet? tx a with
          | none =>
              simp only [h3] at hab
              exact Option.noConfusion hab
          | some ix =>
              simp only [h3] at hab
              by_cases h4 : (vmGet? ix (rmVal row a)).isSome
              · simp only [h4, if_true, Option.some.injEq] at hab
                exact ⟨rmVal row a, hab.symm⟩
              · simp [h4] at hab
    · simp [h1] at hab
  · simp [hhas, hti, hci, hdup]

/-- C1 witness: inserting a second row with id 1 into the populated
`users` table is rejected with the duplicate message and the state is
returned unchanged. -/
theorem C1_witness :
    ∃ v, execute_insert usersState { t_name := "users", columns := none, values := [Value.int 1] } =
      (.error ("Duplicate primary key value: " ++ pyStr v), usersState) :=
  C1_insert_duplicate_pk_fails_without_mutation usersState
    { t_name := "users", columns := none, values := [Value.int 1] }
    usersSchema [("id", Value.int 1)] "id" [("id", usersIdx)] usersIdx
    (by decide) (by decide) (by decide) (by decide) (by decide) (by decide)
    (by decide) (by decide)

/-- C10: an INSERT with an explicit column list never checks the
listed names against the schema: on an all-nullable table without
primary keys, naming an unknown column still succeeds with rowcount
1, the row file gains exactly one line whose fields are one per
schema column, and every schema column that was not supplied is
stored as the literal `NULL` (the unknown value is dropped because
encoding only reads schema columns). -/
theorem C10_insert_ignores_unknown_columns
    (st : DBState) (t : String) (schema : TableSchema)
    (cols : List String) (vals : List Value) (c : String)
    (hs : loadSchema st t = .ok schema)
    (hnull : schema.columns.all (fun col => col.nullable) = true)
    (hnopk : schema.columns.all (fun col => !col.primary_key) = true)
    (hc : c ∈ cols)
    (hunk : ∀ col ∈ schema.columns, col.name ≠ c) :
    ∃ st', execute_insert st { t_name := t, columns := some cols, values := vals } =
        (.ok (QueryResult.make none 1), st') ∧
      alGet? st'.tables t =
        some (((alGet? st.tables t).getD []) ++ [encodeLine schema (pyDict (cols.zip vals))]) ∧
      (encodeFields schema (pyDict (cols.zip vals))).length = schema.columns.length ∧
      (∀ col ∈ schema.columns, col.name ∉ cols →
        encodeField ((rmGet? (pyDict (cols.zip vals)) col.name).getD .null) = "NULL") := by
  have hrow : prepare_row schema { t_name := t, columns := some cols, values := vals } =
      .ok (pyDict (cols.zip vals)) := rfl
  have hv := validate_row_of_all_nullable schema (pyDict (cols.zip vals)) hnull
  have hpk0 := primary_key_eq_nil_of_no_pk schema hnopk
  have hp : pkDupError st t schema (pyDict (cols.zip vals)) = none := by
    unfold pkDupError
    rw [hpk0]
    rfl
  have hexec := execute_insert_ok st { t_name := t, columns := some cols, values := vals }
    schema (pyDict (cols.zip vals)) hs hrow hv hp
  refine ⟨_, hexec, ?_, ?_, ?_⟩
  · rw [saveTableIndexes_tables, indexesAdd_tables]
    unfold appendRowState
    simp only []
    rw [alGet?_alSet]
    simp
  · simp [encodeFields]
  · intro col hcol hnot
    rw [rmGet?, alGet?_pyDict_zip_eq_none cols vals col.name hnot]
    rfl

/-- C10 witness: `INSERT INTO t (zzz, b) VALUES (7, "x")` on the
two-column all-nullable table succeeds, appends the line `NULL,x`, and
column `a` (not supplied) is stored as NULL. -/
theorem C10_witness :
    ∃ st', execute_insert abState { t_name := "t", columns := some ["zzz", "b"], values := [Value.int 7, Value.str "x"] } =
        (.ok (QueryResult.make none 1), st') ∧
      alGet? st'.tables "t" =
        some (((alGet? abState.tables "t").getD []) ++
          [encodeLine abSchema (pyDict (["zzz", "b"].zip [Value.int 7, Value.str "x"]))]) ∧
      (encodeFields abSchema (pyDict (["zzz", "b"].zip [Value.int 7, Value.str "x"]))).length =
        abSchema.columns.length ∧
      (∀ col ∈ abSchema.columns, col.name ∉ ["zzz", "b"] →
        encodeField ((rmGet? (pyDict (["zzz", "b"].zip [Value.int 7, Value.str "x"])) col.name).getD .null) = "NULL") :=
  C10_insert_ignores_unknown_columns abState "t" abSchema ["zzz", "b"]
    [Value.int 7, Value.str "x"] "zzz"
    (by decide) (by decide) (by decide) (by decide) (by decide)

/-- Core of the LIKE claim: when the (lower-cased) subject starts with
the (lower-cased) pattern, the translated pattern matches — literal
tokens consume the matching prefix characters and each `%` wildcard
can absorb the corresponding literal character. -/
theorem reMatch_of_ci_startsWith (p : List Char) : ∀ (s t : List Char),
    s.map Char.toLower = p.map Char.toLower ++ t →
    reMatch (p.map (fun c => if c = '%' then RTok.star else RTok.lit c)) s = true := by
  induction p with
  | nil => intro s t h; rfl
  | cons c p ih =>
      intro s t h
      cases s with
      | nil => simp at h
      | cons x xs =>
          simp only [List.map_cons, List.cons_append, List.cons.injEq] at h
          obtain ⟨hx, hxs⟩ := h
          by_cases hc : c = '%'
          · subst hc
            simp only [List.map_cons, if_pos rfl]
            show (suffixes (x :: xs)).any (fun s => reMatch _ s) = true
            rw [List.any_eq_true]
            refine ⟨xs, ?_, ih xs t hxs⟩
            show xs ∈ (x :: xs) :: suffixes xs
            cases xs with
            | nil => simp [suffixes]
            | cons y ys => simp [suffixes]
          · simp only [List.map_cons, if_neg hc]
            show ((x.toLower == c.toLower) && reMatch _ xs) = true
            rw [Bool.and_eq_true]
            exact ⟨by rw [hx]; simp, ih xs t hxs⟩

/-- C9: LIKE translates `%` to `.*` and matches with `re.match`
case-insensitively, which anchors only at the start and does not
require the whole value to be consumed.  Hence any pattern (free of
other regex metacharacters, the scope in which the literal-token
translation is faithful) that does not end in `%` and is a proper
case-insensitive prefix of the value still matches. -/
theorem C9_like_is_anchored_prefix_match (p s : String) (t : List Char)
    (hmeta : ∀ c ∈ p.toList, isRegexMeta c = false)
    (hnoend : endsWithList ['%'] p.toList = false)
    (hpre : s.toList.map Char.toLower = p.toList.map Char.toLower ++ t)
    (hproper : t ≠ []) :
    likeValue (.str p) (.str s) = true := by
  show reMatch (likeTranslate p) s.toList = true
  exact reMatch_of_ci_startsWith p.toList s.toList t hpre

/-- C9 witness: `name LIKE "al"` matches the value `Alice` although
the pattern is only a proper case-insensitive prefix of it. -/
theorem C9_witness : likeValue (Value.str "al") (Value.str "Alice") = true :=
  C9_like_is_anchored_prefix_match "al" "Alice" ['i', 'c', 'e']
    (by decide) (by decide) (by decide) (by decide)

theorem updateLoop_count (t : String) (updates : List (String × Value))
    (w : Option SimpleWhere) :
    ∀ (rows done : List Row) (cnt : Nat) (st : DBState),
      (updateLoop t updates w rows done cnt st).2.1 =
        cnt + rows.countP (fun r => matchesWhere w r) := by
  intro rows
  induction rows with
  | nil => intro done cnt st; simp [updateLoop]
  | cons row rest ih =>
      intro done cnt st
      by_cases hm : matchesWhere w row
      · simp only [updateLoop]
        rw [if_pos hm, ih]
        simp [List.countP_cons, hm]
        omega
      · simp only [updateLoop]
        rw [if_neg hm, ih]
        simp [List.countP_cons, hm]

theorem deleteLoop_count (t : String) (w : Option SimpleWhere) :
    ∀ (rows kept : List Row) (cnt : Nat) (st : DBState),
      (deleteLoop t w rows kept cnt st).2.1 =
        cnt + rows.countP (fun r => matchesWhere w r) := by
  intro rows
  induction rows with
  | nil => intro kept cnt st; simp [deleteLoop]
  | cons row rest ih =>
      intro kept cnt st
      by_cases hm : matchesWhere w row
      · simp only [deleteLoop]
        rw [if_pos hm, ih]
        simp [List.countP_cons, hm]
        omega
      · simp only [deleteLoop]
        rw [if_neg hm, ih]
        simp [List.countP_cons, hm]

theorem execute_create_table_fst_ok (st : DBState) (cmd : CreateCmd) (res : QueryResult)
    (h : (execute_create_table st cmd).1 = .ok res) : res = QueryResult.make none 0 := by
  unfold execute_create_table at h
  dsimp only at h
  split at h
  · simp at h
  · simp at h
    exact h.symm

theorem execute_insert_fst_ok (st : DBState) (cmd : InsertCmd) (res : QueryResult)
    (h : (execute_insert st cmd).1 = .ok res) : res = QueryResult.make none 1 := by
  unfold execute_insert at h
  split at h
  · simp at h
  · split at h
    · simp at h
    · split at h
      · simp at h
      · split at h
        · simp at h
        · split at h
          · simp at h
          · simp at h
            exact h.symm

theorem execute_update_fst_ok (st : DBState) (cmd : UpdateCmd) (res : QueryResult)
    (h : (execute_update st cmd).1 = .ok res) :
    res = QueryResult.make none (commandAffected st (.update cmd)) := by
  unfold execute_update at h
  cases hrr : read_rows st cmd.t_name with
  | error e =>
      simp only [hrr] at h
      exact Except.noConfusion h
  | ok rows =>
      simp only [hrr] at h
      rcases heq : updateLoop cmd.t_name cmd.updates cmd.whereClause rows [] 0 st
        with ⟨newRows, cnt, st1⟩
      rw [heq] at h
      have hcnt : cnt = rows.countP (fun r => matchesWhere cmd.whereClause r) := by
        have := updateLoop_count cmd.t_name cmd.updates cmd.whereClause rows [] 0 st
        rw [heq] at this
        simpa using this
      have hca : commandAffected st (.update cmd) =
          rows.countP (fun r => matchesWhere cmd.whereClause r) := by
        unfold commandAffected
        simp only [hrr]
      rw [hca, ← hcnt]
      simp only at h
      split at h
      · split at h
        · simp at h
        · simp at h
          exact h.symm
      · simp at h
        exact h.symm

theorem execute_delete_fst_ok (st : DBState) (cmd : DeleteCmd) (res : QueryResult)
    (h : (execute_delete st cmd).1 = .ok res) :
    res = QueryResult.make none (commandAffected st (.delete cmd)) := by
  unfold execute_delete at h
  cases hrr : read_rows st cmd.t_name with
  | error e =>
      simp only [hrr] at h
      exact Except.noConfusion h
  | ok rows =>
      simp only [hrr] at h
      rcases heq : deleteLoop cmd.t_name cmd.whereClause rows [] 0 st
        with ⟨newRows, cnt, st1⟩
      rw [heq] at h
      have hcnt : cnt = rows.countP (fun r => matchesWhere cmd.whereClause r) := by
        have := deleteLoop_count cmd.t_name cmd.whereClause rows [] 0 st
        rw [heq] at this
        simpa using this
      have hca : commandAffected st (.delete cmd) =
          rows.countP (fun r => matchesWhere cmd.whereClause r) := by
        unfold commandAffected
        simp only [hrr]
      rw [hca, ← hcnt]
      simp only at h
      split at h
      · split at h
        · simp at h
        · simp at h
          exact h.symm
      · simp at h
        exact h.symm

/-- C8: the claim says commands without a result set return
`rows = null` and `rowcount` equal to the affected row count.  In the
code the rows attribute of a successful mutating command is the empty
list, never null (`rows or []`); the rowcount part holds: 1 for
INSERT, the number of WHERE-matching rows for UPDATE and DELETE, 0
for CREATE TABLE and DROP TABLE. -/
theorem C8_mutating_rows_empty_list_and_rowcount_affected
    (st : DBState) (cmd : Command) (res : QueryResult) (st' : DBState)
    (h : execute st cmd = (.ok res, st')) :
    res.rows = some [] ∧ res.rowcount = commandAffected st cmd := by
  have h1 : (execute st cmd).1 = .ok res := by rw [h]
  cases cmd with
  | createTable c =>
      have hres := execute_create_table_fst_ok st c res h1
      subst hres
      exact ⟨rfl, rfl⟩
  | insert c =>
      have hres := execute_insert_fst_ok st c res h1
      subst hres
      exact ⟨rfl, rfl⟩
  | update c =>
      have hres := execute_update_fst_ok st c res h1
      subst hres
      exact ⟨rfl, rfl⟩
  | delete c =>
      have hres := execute_delete_fst_ok st c res h1
      subst hres
      exact ⟨rfl, rfl⟩
  | dropTable t =>
      have hres : res = QueryResult.make none 0 := by
        unfold execute execute_drop_table at h1
        simp at h1
        exact h1.symm
      subst hres
      exact ⟨rfl, rfl⟩

/-- C8 witness: a concrete successful INSERT has `rows = some []` and
`rowcount = 1` = the affected count. -/
theorem C8_witness :
    (QueryResult.make none 1).rows = some [] ∧
      (QueryResult.make none 1).rowcount =
        commandAffected abState (Command.insert insertB) :=
  C8_mutating_rows_empty_list_and_rowcount_affected abState (Command.insert insertB)
    (QueryResult.make none 1) (execute abState (Command.insert insertB)).2 (by decide)

theorem removeIdxFiles_tables (t : String) :
    ∀ (l : List (String × IndexMap)) (st : DBState),
      (removeIdxFiles t l st).tables = st.tables := by
  intro l
  induction l with
  | nil => intro st; rfl
  | cons p rest ih => intro st; simp [removeIdxFiles, ih]

theorem removeIdxFiles_schemas (t : String) :
    ∀ (l : List (String × IndexMap)) (st : DBState),
      (removeIdxFiles t l st).schemas = st.schemas := by
  intro l
  induction l with
  | nil => intro st; rfl
  | cons p rest ih => intro st; simp [removeIdxFiles, ih]

theorem removeIdxFiles_indexes (t : String) :
    ∀ (l : List (String × IndexMap)) (st : DBState),
      (removeIdxFiles t l st).indexes = st.indexes := by
  intro l
  induction l with
  | nil => intro st; rfl
  | cons p rest ih => intro st; simp [removeIdxFiles, ih]

/-- After removing the index file of every cached column of `t`, no
index file keyed to `t` remains, provided the files were covered by
the cache. -/
theorem removeIdxFiles_all_ne (t : String) :
    ∀ (l : List (String × IndexMap)) (st : DBState),
      (st.idxFiles.map Prod.fst).Nodup →
      (∀ e ∈ st.idxFiles, e.1.1 = t → e.1.2 ∈ l.map Prod.fst) →
      ∀ e ∈ (removeIdxFiles t l st).idxFiles, e.1.1 ≠ t := by
  intro l
  induction l with
  | nil =>
      intro st hnd hcov e he het
      exact absurd (hcov e he het) (by simp)
  | cons ce rest ih =>
      intro st hnd hcov
      refine ih { st with idxFiles := alRemove st.idxFiles (t, ce.1) } ?_ ?_
      · exact nodup_keys_alRemove st.idxFiles (t, ce.1) hnd
      · intro e' he' het'
        have he'' : e' ∈ st.idxFiles := (alRemove_sublist st.idxFiles (t, ce.1)).subset he'
        have hin := hcov e' he'' het'
        rw [List.map_cons] at hin
        rcases List.mem_cons.mp hin with hhd | htl
        · exfalso
          have hkey : e'.1 = (t, ce.1) := Prod.ext het' hhd
          exact mem_alRemove_key_ne st.idxFiles (t, ce.1) e' hnd he' hkey
        · exact htl

/-- C6 amended: DROP TABLE never fails.  For any state (with
duplicate-free file listings and index files covered by the cache, as
every state built by this executor is), dropping `t` returns rowcount
0 and leaves no row file, no schema file, no cache entry and no index
file for `t`; in particular the second of two consecutive drops also
succeeds as a no-op instead of raising a not-found error. -/
theorem C6_drop_table_always_succeeds_and_clears (st : DBState) (t : String)
    (hnd : keysNodup st) (hcov : idxFilesCovered st t = true) :
    ∃ st', execute_drop_table st t = (.ok (QueryResult.make none 0), st') ∧
      alGet? st'.tables t = none ∧
      alGet? st'.schemas t = none ∧
      alGet? st'.indexes t = none ∧
      ∀ e ∈ st'.idxFiles, e.1.1 ≠ t := by
  obtain ⟨hndS, hndT, hndF, hndI⟩ := hnd
  rw [idxFilesCovered, List.all_eq_true] at hcov
  refine ⟨(execute_drop_table st t).2, rfl, ?_, ?_, ?_, ?_⟩
  all_goals unfold execute_drop_table
  all_goals dsimp only
  all_goals cases halg : alGet? st.indexes t
  · exact alGet?_alRemove_self st.tables t hndT
  · rw [removeIdxFiles_tables]
    exact alGet?_alRemove_self st.tables t hndT
  · exact alGet?_alRemove_self st.schemas t hndS
  · rw [removeIdxFiles_schemas]
    exact alGet?_alRemove_self st.schemas t hndS
  · exact halg
  · dsimp only
    rw [removeIdxFiles_indexes]
    exact alGet?_alRemove_self st.indexes t hndI
  · intro e he het
    have := hcov e he
    rw [halg] at this
    simp [het] at this
  · rename_i tidx
    refine removeIdxFiles_all_ne t tidx _ hndF ?_
    intro e he het
    have := hcov e he
    rw [halg] at this
    simp only [het, beq_self_eq_true, Bool.not_true, Bool.false_or, Option.getD_some,
      List.any_eq_true] at this
    rcases this with ⟨ce, hce, hbe⟩
    rw [← eq_of_beq hbe]
    exact List.mem_map_of_mem Prod.fst hce

/-- C6 witness: dropping the populated `users` table satisfies the
hypotheses and clears every file; applying the theorem to the
resulting state shows the second drop also succeeds. -/
theorem C6_witness :
    ∃ st', execute_drop_table usersState "users" =
        (.ok (QueryResult.make none 0), st') ∧
      alGet? st'.tables "users" = none ∧
      alGet? st'.schemas "users" = none ∧
      alGet? st'.indexes "users" = none ∧
      ∀ e ∈ st'.idxFiles, e.1.1 ≠ "users" :=
  C6_drop_table_always_succeeds_and_clears usersState "users"
    (by constructor <;> simp [usersState]) (by decide)

end RDBMS
